import Mathlib

/-!
Shallow embedding of `src/assignment1/vi_and_pi.bak.py` (MDP value iteration and
policy iteration over a gym-style transition model).

Modelling conventions:
* Python floats are modelled by `ℚ` (the algorithms only add, multiply, compare).
* numpy arrays of length `nS` are modelled by total functions `ℕ → ℚ` / `ℕ → ℕ`;
  every operation below only ever reads indices below `nS` (resp. `nA`).
* The nested dictionary `P` is a function giving, for each `(state, action)`,
  the list of outcome tuples `(probability, nextstate, reward, terminal)`.
* Each `while True:` loop is embedded as a fuel-indexed runner returning
  `Option`: `none` means the loop had not exited after `fuel` passes.  The
  source loops carry no iteration cap and raise no error, so `none` never
  corresponds to a raised error, only to an unfinished loop.
-/

/-- One entry of `P[state][action]`: the tuple
`(probability, nextstate, reward, terminal)` described at the top of the file. -/
structure Outcome where
  prob : ℚ
  next : ℕ
  reward : ℚ
  terminal : Bool
deriving DecidableEq

instance : Inhabited Outcome := ⟨⟨0, 0, 0, false⟩⟩

/-- The arguments `(P, nS, nA)` shared by all four algorithms. -/
structure MDP where
  nS : ℕ
  nA : ℕ
  P : ℕ → ℕ → List Outcome

/-- `P[s][a][0]` — `p_to_tensor` (line 42) reads only the first outcome of the
list `P[s][a]` (`np.array(P[s][a][0][0:4])`). -/
def firstOutcome (m : MDP) (s a : ℕ) : Outcome := (m.P s a).headI

/-- `prob = P_tensor[:,:,0]` from `p_to_tensor` (line 44). -/
def prob (m : MDP) (s a : ℕ) : ℚ := (firstOutcome m s a).prob

/-- `s_next = P_tensor[:,:,1].astype(int)` from `p_to_tensor` (line 45). -/
def s_next (m : MDP) (s a : ℕ) : ℕ := (firstOutcome m s a).next

/-- `r = P_tensor[:,:,2]` from `p_to_tensor` (line 46). -/
def r (m : MDP) (s a : ℕ) : ℚ := (firstOutcome m s a).reward

/-- The all-zero value function `np.zeros(nS)`. -/
def zeroV : ℕ → ℚ := fun _ => 0

/-- The all-zero policy `np.zeros(nS, dtype=int)`. -/
def zeroPol : ℕ → ℕ := fun _ => 0

/-- `np.linalg.norm(V - V_new, ord=np.inf)` over the `n` stored entries:
the maximum of the absolute componentwise differences (0 for `n = 0`). -/
def normInf (f g : ℕ → ℚ) (n : ℕ) : ℚ :=
  ((List.range n).map (fun s => |f s - g s|)).foldr max 0

/-- `np.take(prob, nA*np.arange(nS) + policy)` at entry `s`
(policy_evaluation, lines 84–85): flat index `nA*s + policy[s]` into the
row-major `(nS, nA)` matrix, i.e. row `(nA*s + policy[s]) / nA`,
column `(nA*s + policy[s]) % nA`. -/
def prob_pi (m : MDP) (pol : ℕ → ℕ) (s : ℕ) : ℚ :=
  prob m ((m.nA * s + pol s) / m.nA) ((m.nA * s + pol s) % m.nA)

/-- `np.take(s_next, nA*np.arange(nS) + policy)` at entry `s` (line 86). -/
def s_next_pi (m : MDP) (pol : ℕ → ℕ) (s : ℕ) : ℕ :=
  s_next m ((m.nA * s + pol s) / m.nA) ((m.nA * s + pol s) % m.nA)

/-- `np.take(r, nA*np.arange(nS) + policy)` at entry `s` (line 87). -/
def r_pi (m : MDP) (pol : ℕ → ℕ) (s : ℕ) : ℚ :=
  r m ((m.nA * s + pol s) / m.nA) ((m.nA * s + pol s) % m.nA)

/-- One body of policy_evaluation's loop (line 90):
`V_new = prob_pi * (r_pi + gamma * V[s_next_pi])`. -/
def peStep (m : MDP) (pol : ℕ → ℕ) (γ : ℚ) (V : ℕ → ℚ) (s : ℕ) : ℚ :=
  prob_pi m pol s * (r_pi m pol s + γ * V (s_next_pi m pol s))

/-- The `k`-th iterate of policy_evaluation's loop starting from
`value_function = np.zeros(nS)` (line 71). -/
def peIter (m : MDP) (pol : ℕ → ℕ) (γ : ℚ) : ℕ → ℕ → ℚ
  | 0 => zeroV
  | k + 1 => peStep m pol γ (peIter m pol γ k)

/-- The `while True:` loop of policy_evaluation (lines 89–93), fuel-indexed:
compute `V_new`, exit returning `V_new` once
`np.linalg.norm(V - V_new, inf) < tol`, otherwise continue from `V_new`. -/
def peLoop (m : MDP) (pol : ℕ → ℕ) (γ tol : ℚ) : (ℕ → ℚ) → ℕ → Option (ℕ → ℚ)
  | _, 0 => none
  | V, fuel + 1 =>
    if normInf V (peStep m pol γ V) m.nS < tol then some (peStep m pol γ V)
    else peLoop m pol γ tol (peStep m pol γ V) fuel

/-- `policy_evaluation(P, nS, nA, policy, gamma, tol)` (lines 52–99):
run the evaluation loop from the all-zero value function. -/
def policy_evaluation (m : MDP) (pol : ℕ → ℕ) (γ tol : ℚ) (fuel : ℕ) :
    Option (ℕ → ℚ) :=
  peLoop m pol γ tol zeroV fuel

/-- `V_pi[s][a] = prob * (r + gamma * value_from_policy[s_next])`
(policy_improvement line 135, and `Q` of value_iteration line 215). -/
def Qrow (m : MDP) (γ : ℚ) (V : ℕ → ℚ) (s a : ℕ) : ℚ :=
  prob m s a * (r m s a + γ * V (s_next m s a))

/-- One comparison of `np.argmax`'s left-to-right scan: the running best index
is replaced only by a strictly larger value, so the first occurrence of the
maximum wins. -/
def argStep (f : ℕ → ℚ) (best a : ℕ) : ℕ := if f best < f a then a else best

/-- `np.argmax` over one row of length `n`: index of the first occurrence of
the maximum (numpy's documented tie rule). -/
def npArgmax (f : ℕ → ℚ) (n : ℕ) : ℕ := (List.range n).foldl (argStep f) 0

/-- `policy_improvement(P, nS, nA, value_from_policy, policy, gamma)`
(lines 102–142): `new_policy = np.argmax(V_pi, axis=1)`.  The `policy`
argument is accepted but never read (the source additionally prints the
result, an output effect not modelled). -/
def policy_improvement (m : MDP) (V : ℕ → ℚ) (pol : ℕ → ℕ) (γ : ℚ) : ℕ → ℕ :=
  fun s => npArgmax (fun a => Qrow m γ V s a) m.nA

/-- `np.max(Q, axis=1)` over one row of length `n` (value_iteration line 216);
numpy raises on an empty row, so for `n = 0` the value is irrelevant here. -/
def npMax (f : ℕ → ℚ) (n : ℕ) : ℚ :=
  (List.range n).foldl (fun acc a => max acc (f a)) (f 0)

/-- One sweep of value_iteration (lines 214–216): `V_new = np.zeros(nS)` and
then `np.maximum(V_new, np.max(Q, axis=1), out=V_new)`, i.e. the action-max
clamped below at the fresh zero array. -/
def viSweep (m : MDP) (γ : ℚ) (V : ℕ → ℚ) (s : ℕ) : ℚ :=
  max 0 (npMax (fun a => Qrow m γ V s a) m.nA)

/-- The `k`-th iterate of value_iteration's loop starting from
`value_function = np.zeros(nS)` (lines 203, 212). -/
def viIter (m : MDP) (γ : ℚ) : ℕ → ℕ → ℚ
  | 0 => zeroV
  | k + 1 => viSweep m γ (viIter m γ k)

/-- The `while True:` loop of value_iteration (lines 213–219), fuel-indexed. -/
def viLoop (m : MDP) (γ tol : ℚ) : (ℕ → ℚ) → ℕ → Option (ℕ → ℚ)
  | _, 0 => none
  | V, fuel + 1 =>
    if normInf V (viSweep m γ V) m.nS < tol then some (viSweep m γ V)
    else viLoop m γ tol (viSweep m γ V) fuel

/-- `value_iteration(P, nS, nA, gamma, tol)` (lines 185–224).  After the loop
exits with `V_new`, the source runs `policy_improvement(P, nS, nA, V_new,
policy, gamma)` and then `return value_function, policy` — `value_function`
is still the array created by `np.zeros(nS)` on line 203, never reassigned,
so the first component returned is the all-zero function. -/
def value_iteration (m : MDP) (γ tol : ℚ) (fuel : ℕ) :
    Option ((ℕ → ℚ) × (ℕ → ℕ)) :=
  (viLoop m γ tol zeroV fuel).map
    (fun Vn => (zeroV, policy_improvement m Vn zeroPol γ))

/-- `np.array_equal(policy, policy_new)` on arrays of length `n`. -/
def arrayEqual (p q : ℕ → ℕ) (n : ℕ) : Bool :=
  (List.range n).all (fun s => p s == q s)

/-- The `while True:` loop of policy_iteration (lines 172–179), fuel-indexed.
Each pass improves the current `V`, re-evaluates the improved policy with
`policy_evaluation(P, nS, nA, policy_new, gamma)` — the call on line 174
passes no `tol`, so the evaluation runs with its default `tol=1e-3` — and
exits when the policies agree elementwise, returning
`(value_function, policy)` where `value_function` is still the
`np.zeros(nS)` array from line 163 (never reassigned) and `policy` is the
current (pre-assignment) policy variable. -/
def piLoop (m : MDP) (γ : ℚ) (evalFuel : ℕ) :
    (ℕ → ℚ) → (ℕ → ℕ) → ℕ → Option ((ℕ → ℚ) × (ℕ → ℕ))
  | _, _, 0 => none
  | V, pol, fuel + 1 =>
    match policy_evaluation m (policy_improvement m V pol γ) γ (1 / 1000) evalFuel with
    | none => none
    | some Vn =>
      if arrayEqual pol (policy_improvement m V pol γ) m.nS then some (zeroV, pol)
      else piLoop m γ evalFuel Vn (policy_improvement m V pol γ) fuel

/-- `policy_iteration(P, nS, nA, gamma, tol)` (lines 145–183).  The initial
evaluation on line 170 is `policy_evaluation(P, nS, nA, policy, gamma)` —
again with no `tol` argument, hence the default `1e-3`; the `tol` parameter
of `policy_iteration` itself is never used anywhere in the body. -/
def policy_iteration (m : MDP) (γ tol : ℚ) (evalFuel outerFuel : ℕ) :
    Option ((ℕ → ℚ) × (ℕ → ℕ)) :=
  match policy_evaluation m zeroPol γ (1 / 1000) evalFuel with
  | none => none
  | some V => piLoop m γ evalFuel V zeroPol outerFuel

/-- Modelled from the spec (§4.5): the claimed sweep
`V_{k+1}(s) = max_a [ prob(s,a) * (reward(s,a) + γ * V_k(next_state(s,a))) ]`
— the action-max of the one-step backup with no other transformation.
Used only to compare the source's sweep against the spec's formula. -/
def viSweepSpec (m : MDP) (γ : ℚ) (V : ℕ → ℚ) (s : ℕ) : ℚ :=
  npMax (fun a => prob m s a * (r m s a + γ * V (s_next m s a))) m.nA

/-- "The policy-evaluation loop eventually meets its stopping rule": there is
an iteration index `k` whose update moves the value function by less than
`tol` in infinity norm.  The source loop (lines 89–93) exits exactly when
this happens for the current iterate. -/
def PEStops (m : MDP) (pol : ℕ → ℕ) (γ tol : ℚ) : Prop :=
  ∃ k, normInf (peIter m pol γ k) (peIter m pol γ (k + 1)) m.nS < tol

/-- A one-state, one-action model: the single outcome is a deterministic
self-loop with probability 1 and reward 1. -/
def loopModel : MDP := ⟨1, 1, fun _ _ => [⟨1, 0, 1, false⟩]⟩

/-- A two-state, one-action model whose pair `(0,0)` has TWO outcomes:
with probability 1/2 stay at 0 with reward 0, with probability 1/2 move
to 1 with reward 1. -/
def mC3 : MDP :=
  ⟨2, 1, fun s _ =>
    if s = 0 then [⟨1/2, 0, 0, false⟩, ⟨1/2, 1, 1, false⟩]
    else [⟨1, 1, 0, false⟩]⟩

/-- A one-state, one-action model whose only reward is negative. -/
def mNeg : MDP := ⟨1, 1, fun _ _ => [⟨1, 0, -1, false⟩]⟩

/-- A one-state, two-action model in which both actions have the identical
single outcome, so their Q-values tie for every value function. -/
def mTie : MDP := ⟨1, 2, fun _ _ => [⟨1, 0, 1, false⟩]⟩

/-- The model with every outcome list cut down to its first entry — the part
of the transition model that `p_to_tensor` actually looks at. -/
def truncateModel (m : MDP) : MDP := ⟨m.nS, m.nA, fun s a => (m.P s a).take 1⟩

/-! ### Generic lemmas about the numpy-style fold operations -/

/-- `foldr max 0` of a list of rationals is nonnegative. -/
theorem foldr_max_nonneg : ∀ l : List ℚ, 0 ≤ l.foldr max 0
  | [] => le_refl 0
  | x :: l => le_trans (foldr_max_nonneg l) (le_max_right x _)

/-- An infinity norm is nonnegative. -/
theorem normInf_nonneg (f g : ℕ → ℚ) (n : ℕ) : 0 ≤ normInf f g n :=
  foldr_max_nonneg _

/-- The seed of a `foldl max` is below the result. -/
theorem le_foldl_max : ∀ (l : List ℚ) (b : ℚ), b ≤ l.foldl max b := by
  intro l
  induction l with
  | nil => intro b; exact le_refl b
  | cons x xs ih =>
      intro b
      exact le_trans (le_max_left b x) (ih (max b x))

/-- Every member of a list is below its `foldl max`. -/
theorem mem_le_foldl_max : ∀ (l : List ℚ) (b x : ℚ), x ∈ l → x ≤ l.foldl max b := by
  intro l
  induction l with
  | nil => intro b x hx; exact absurd hx (List.not_mem_nil x)
  | cons y ys ih =>
      intro b x hx
      rcases List.mem_cons.mp hx with h | h
      · subst h
        exact le_trans (le_max_right b x) (le_foldl_max ys _)
      · exact ih _ x h

/-- A `foldl max` is either its seed or one of the list members. -/
theorem foldl_max_choice : ∀ (l : List ℚ) (b : ℚ),
    l.foldl max b = b ∨ l.foldl max b ∈ l := by
  intro l
  induction l with
  | nil => intro b; exact Or.inl rfl
  | cons y ys ih =>
      intro b
      rcases ih (max b y) with h | h
      · rcases le_total y b with hyb | hby
        · left
          rw [List.foldl_cons, h, max_eq_left hyb]
        · right
          rw [List.foldl_cons, h, max_eq_right hby]
          exact List.mem_cons_self y ys
      · right
        exact List.mem_cons_of_mem y h

/-- `npMax` as a `foldl max` over the mapped row. -/
theorem npMax_eq_foldl (f : ℕ → ℚ) (n : ℕ) :
    npMax f n = ((List.range n).map f).foldl max (f 0) := by
  rw [npMax, List.foldl_map]

/-- Every row entry is bounded by `np.max` of the row. -/
theorem le_npMax (f : ℕ → ℚ) (n a : ℕ) (ha : a < n) : f a ≤ npMax f n := by
  rw [npMax_eq_foldl]
  exact mem_le_foldl_max _ _ _ (List.mem_map_of_mem f (List.mem_range.mpr ha))

/-- `np.max` of a row is attained by some entry (for a nonempty row). -/
theorem npMax_choice (f : ℕ → ℚ) (n : ℕ) (hn : 0 < n) :
    ∃ a, a < n ∧ npMax f n = f a := by
  rw [npMax_eq_foldl]
  rcases foldl_max_choice ((List.range n).map f) (f 0) with h | h
  · exact ⟨0, hn, h⟩
  · rcases List.mem_map.mp h with ⟨a, hmem, hfa⟩
    exact ⟨a, List.mem_range.mp hmem, hfa.symm⟩

/-- Scanning a tied or smaller candidate leaves the running argmax alone. -/
theorem argStep_self (f : ℕ → ℚ) (b : ℕ) : argStep f b b = b :=
  if_neg (lt_irrefl _)

/-- Full specification of numpy's argmax scan `foldl (argStep f) b l` over a
strictly increasing candidate list whose members all exceed the seed: the
result is the seed or a member, it dominates every scanned value, it moves
off the seed only for a strictly larger value, and among equal maxima the
earliest (smallest) index wins. -/
theorem argmaxFold_spec (f : ℕ → ℚ) :
    ∀ (l : List ℕ) (b : ℕ), (∀ x ∈ l, b < x) → l.Pairwise (· < ·) →
      (l.foldl (argStep f) b = b ∨ l.foldl (argStep f) b ∈ l) ∧
      f b ≤ f (l.foldl (argStep f) b) ∧
      (∀ x ∈ l, f x ≤ f (l.foldl (argStep f) b)) ∧
      (f (l.foldl (argStep f) b) ≤ f b → l.foldl (argStep f) b = b) ∧
      (∀ x ∈ l, f (l.foldl (argStep f) b) ≤ f x → l.foldl (argStep f) b ≤ x) := by
  intro l
  induction l with
  | nil =>
      intro b _ _
      refine ⟨Or.inl rfl, le_refl _, ?_, fun _ => rfl, ?_⟩
      · intro x hx; exact absurd hx (List.not_mem_nil x)
      · intro x hx; exact absurd hx (List.not_mem_nil x)
  | cons a l ih =>
      intro b hb hp
      have hba : b < a := hb a (List.mem_cons_self a l)
      have hal : ∀ x ∈ l, a < x := fun x hx => (List.pairwise_cons.mp hp).1 x hx
      have hp' : l.Pairwise (· < ·) := (List.pairwise_cons.mp hp).2
      have hfold : (a :: l).foldl (argStep f) b = l.foldl (argStep f) (argStep f b a) :=
        List.foldl_cons _ _
      by_cases hfc : f b < f a
      · -- the scan moves to `a`
        have hstep : argStep f b a = a := if_pos hfc
        have hb' : ∀ x ∈ l, a < x := hal
        obtain ⟨ih1, ih2, ih3, ih4, ih5⟩ := ih a hb' hp'
        rw [hfold, hstep]
        refine ⟨?_, ?_, ?_, ?_, ?_⟩
        · rcases ih1 with h | h
          · exact Or.inr (by rw [h]; exact List.mem_cons_self a l)
          · exact Or.inr (List.mem_cons_of_mem a h)
        · exact le_trans (le_of_lt hfc) ih2
        · intro x hx
          rcases List.mem_cons.mp hx with h | h
          · subst h; exact ih2
          · exact ih3 x h
        · intro hle
          exact absurd (lt_of_lt_of_le hfc (le_trans ih2 hle)) (lt_irrefl _)
        · intro x hx hle
          rcases List.mem_cons.mp hx with h | h
          · subst h
            exact le_of_eq (ih4 hle)
          · exact ih5 x h hle
      · -- the scan keeps `b`
        have hstep : argStep f b a = b := if_neg hfc
        have hfa : f a ≤ f b := le_of_not_lt hfc
        have hb' : ∀ x ∈ l, b < x := fun x hx => lt_trans hba (hal x hx)
        obtain ⟨ih1, ih2, ih3, ih4, ih5⟩ := ih b hb' hp'
        rw [hfold, hstep]
        refine ⟨?_, ih2, ?_, ih4, ?_⟩
        · rcases ih1 with h | h
          · exact Or.inl h
          · exact Or.inr (List.mem_cons_of_mem a h)
        · intro x hx
          rcases List.mem_cons.mp hx with h | h
          · subst h; exact le_trans hfa ih2
          · exact ih3 x h
        · intro x hx hle
          rcases List.mem_cons.mp hx with h | h
          · subst h
            have : l.foldl (argStep f) b = b := ih4 (le_trans hle hfa)
            rw [this]
            exact le_of_lt hba
          · exact ih5 x h hle

/-- Specification of `npArgmax` on a nonempty row: the result is in range,
attains the row maximum, and is the least index doing so. -/
theorem npArgmax_spec (f : ℕ → ℚ) (n : ℕ) (hn : 0 < n) :
    npArgmax f n < n ∧ (∀ b, b < n → f b ≤ f (npArgmax f n)) ∧
      (∀ b, b < n → f (npArgmax f n) ≤ f b → npArgmax f n ≤ b) := by
  obtain ⟨n', rfl⟩ : ∃ n', n = n' + 1 := ⟨n - 1, (Nat.succ_pred_eq_of_pos hn).symm⟩
  have hexp : npArgmax f (n' + 1)
      = ((List.range n').map Nat.succ).foldl (argStep f) 0 := by
    rw [npArgmax, List.range_succ_eq_map, List.foldl_cons, argStep_self]
  have hb : ∀ x ∈ (List.range n').map Nat.succ, 0 < x := by
    intro x hx
    rcases List.mem_map.mp hx with ⟨y, _, rfl⟩
    exact Nat.succ_pos y
  have hp : ((List.range n').map Nat.succ).Pairwise (· < ·) :=
    List.pairwise_map.mpr ((List.pairwise_lt_range n').imp Nat.succ_lt_succ)
  obtain ⟨h1, h2, h3, h4, h5⟩ := argmaxFold_spec f ((List.range n').map Nat.succ) 0 hb hp
  rw [hexp]
  refine ⟨?_, ?_, ?_⟩
  · rcases h1 with h | h
    · rw [h]; exact Nat.succ_pos n'
    · rcases List.mem_map.mp h with ⟨y, hy, hEq⟩
      rw [← hEq]
      exact Nat.succ_lt_succ (List.mem_range.mp hy)
  · intro b hbn
    cases b with
    | zero => exact h2
    | succ y =>
        exact h3 _ (List.mem_map_of_mem Nat.succ (List.mem_range.mpr (Nat.lt_of_succ_lt_succ hbn)))
  · intro b hbn hle
    cases b with
    | zero => exact le_of_eq (h4 hle)
    | succ y =>
        exact h5 _ (List.mem_map_of_mem Nat.succ (List.mem_range.mpr (Nat.lt_of_succ_lt_succ hbn))) hle

/-! ### Loop semantics helpers -/

/-- The flat `np.take` indexing of policy_evaluation collapses to the direct
`(s, policy[s])` lookup whenever the policy entry is a legal action index. -/
theorem take_pi_eq (m : MDP) (pol : ℕ → ℕ) (s : ℕ) (h : pol s < m.nA) :
    prob_pi m pol s = prob m s (pol s) ∧
    s_next_pi m pol s = s_next m s (pol s) ∧
    r_pi m pol s = r m s (pol s) := by
  have hA : 0 < m.nA := Nat.lt_of_le_of_lt (Nat.zero_le _) h
  have hdiv : (m.nA * s + pol s) / m.nA = s := by
    rw [Nat.mul_add_div hA, Nat.div_eq_of_lt h, Nat.add_zero]
  have hmod : (m.nA * s + pol s) % m.nA = pol s := by
    rw [Nat.mul_add_mod, Nat.mod_eq_of_lt h]
  refine ⟨?_, ?_, ?_⟩
  · rw [prob_pi, hdiv, hmod]
  · rw [s_next_pi, hdiv, hmod]
  · rw [r_pi, hdiv, hmod]

/-- Applying the evaluation update to the `k`-th iterate gives the next one. -/
theorem peStep_iter (m : MDP) (pol : ℕ → ℕ) (γ : ℚ) (k : ℕ) :
    peStep m pol γ (peIter m pol γ k) = peIter m pol γ (k + 1) := rfl

/-- Applying the value-iteration sweep to the `k`-th iterate gives the next. -/
theorem viSweep_iter (m : MDP) (γ : ℚ) (k : ℕ) :
    viSweep m γ (viIter m γ k) = viIter m γ (k + 1) := rfl

/-- If `K` is a stopping index for policy_evaluation (its update moves the
`K`-th iterate by less than `tol`) and no earlier index stops, then the loop
entered at the `j`-th iterate (`j ≤ K`) with enough fuel exits with the
`(K+1)`-st iterate. -/
theorem peLoop_from (m : MDP) (pol : ℕ → ℕ) (γ tol : ℚ) (K : ℕ)
    (hK : normInf (peIter m pol γ K) (peIter m pol γ (K + 1)) m.nS < tol)
    (hmin : ∀ j, j < K → ¬ normInf (peIter m pol γ j) (peIter m pol γ (j + 1)) m.nS < tol) :
    ∀ fuel j, j ≤ K → K - j < fuel →
      peLoop m pol γ tol (peIter m pol γ j) fuel = some (peIter m pol γ (K + 1)) := by
  intro fuel
  induction fuel with
  | zero =>
      intro j _ hlt
      exact absurd hlt (Nat.not_lt_zero _)
  | succ fuel ih =>
      intro j hj hlt
      show (if normInf (peIter m pol γ j) (peStep m pol γ (peIter m pol γ j)) m.nS < tol
            then some (peStep m pol γ (peIter m pol γ j))
            else peLoop m pol γ tol (peStep m pol γ (peIter m pol γ j)) fuel)
          = some (peIter m pol γ (K + 1))
      rw [peStep_iter]
      rcases Nat.eq_or_lt_of_le hj with rfl | hjK
      · rw [if_pos hK]
      · rw [if_neg (hmin j hjK)]
        exact ih (j + 1) hjK (by omega)

/-- Same statement for the value-iteration loop. -/
theorem viLoop_from (m : MDP) (γ tol : ℚ) (K : ℕ)
    (hK : normInf (viIter m γ K) (viIter m γ (K + 1)) m.nS < tol)
    (hmin : ∀ j, j < K → ¬ normInf (viIter m γ j) (viIter m γ (j + 1)) m.nS < tol) :
    ∀ fuel j, j ≤ K → K - j < fuel →
      viLoop m γ tol (viIter m γ j) fuel = some (viIter m γ (K + 1)) := by
  intro fuel
  induction fuel with
  | zero =>
      intro j _ hlt
      exact absurd hlt (Nat.not_lt_zero _)
  | succ fuel ih =>
      intro j hj hlt
      show (if normInf (viIter m γ j) (viSweep m γ (viIter m γ j)) m.nS < tol
            then some (viSweep m γ (viIter m γ j))
            else viLoop m γ tol (viSweep m γ (viIter m γ j)) fuel)
          = some (viIter m γ (K + 1))
      rw [viSweep_iter]
      rcases Nat.eq_or_lt_of_le hj with rfl | hjK
      · rw [if_pos hK]
      · rw [if_neg (hmin j hjK)]
        exact ih (j + 1) hjK (by omega)

/-- A nonpositive tolerance can never be beaten by the (nonnegative) infinity
norm, so the evaluation loop never exits. -/
theorem peLoop_none_of_tol_nonpos (m : MDP) (pol : ℕ → ℕ) (γ tol : ℚ)
    (h : tol ≤ 0) : ∀ fuel V, peLoop m pol γ tol V fuel = none := by
  intro fuel
  induction fuel with
  | zero => intro V; rfl
  | succ fuel ih =>
      intro V
      show (if normInf V (peStep m pol γ V) m.nS < tol
            then some (peStep m pol γ V)
            else peLoop m pol γ tol (peStep m pol γ V) fuel) = none
      rw [if_neg (not_lt.mpr (le_trans h (normInf_nonneg _ _ _)))]
      exact ih _

/-- Whatever the value-iteration loop returns is a sweep output, hence
elementwise nonnegative. -/
theorem viLoop_nonneg (m : MDP) (γ tol : ℚ) :
    ∀ fuel V₀ s, 0 ≤ ((viLoop m γ tol V₀ fuel).getD zeroV) s := by
  intro fuel
  induction fuel with
  | zero => intro V₀ s; exact le_refl 0
  | succ fuel ih =>
      intro V₀ s
      show 0 ≤ ((if normInf V₀ (viSweep m γ V₀) m.nS < tol
                 then some (viSweep m γ V₀)
                 else viLoop m γ tol (viSweep m γ V₀) fuel).getD zeroV) s
      by_cases hc : normInf V₀ (viSweep m γ V₀) m.nS < tol
      · rw [if_pos hc]
        exact le_max_left 0 _
      · rw [if_neg hc]
        exact ih _ s

/-! ### The self-loop model: explicit iterates -/

/-- The infinity norm over a single state is the single absolute difference. -/
theorem normInf_one (f g : ℕ → ℚ) : normInf f g 1 = |f 0 - g 0| := by
  show ((List.range 1).map (fun s => |f s - g s|)).foldr max 0 = |f 0 - g 0|
  rw [show List.range 1 = [0] from rfl, List.map_cons, List.map_nil, List.foldr_cons,
    List.foldr_nil]
  exact max_eq_left (abs_nonneg _)

/-- `np.max` of a single-entry row is that entry. -/
theorem npMax_one (f : ℕ → ℚ) : npMax f 1 = f 0 := by
  show (List.range 1).foldl (fun acc a => max acc (f a)) (f 0) = f 0
  rw [show List.range 1 = [0] from rfl, List.foldl_cons, List.foldl_nil, max_self]

/-- `np.argmax` of a single-entry row is index 0. -/
theorem npArgmax_one (f : ℕ → ℚ) : npArgmax f 1 = 0 := by
  rw [npArgmax, show List.range 1 = [0] from rfl, List.foldl_cons, List.foldl_nil,
    argStep_self]

/-- `np.array_equal` on two copies of the same array. -/
theorem arrayEqual_self (p : ℕ → ℕ) (n : ℕ) : arrayEqual p p n = true := by
  rw [arrayEqual, List.all_eq_true]
  intro s _
  exact beq_self_eq_true (p s)

/-- One evaluation update on `loopModel`: every entry becomes `1 + γ * V 0`
(probability 1, reward 1, next state 0). -/
theorem peStep_loopModel (γ : ℚ) (V : ℕ → ℚ) (s : ℕ) :
    peStep loopModel zeroPol γ V s = 1 + γ * V 0 := by
  simp [peStep, prob_pi, r_pi, s_next_pi, prob, r, s_next, firstOutcome, loopModel, zeroPol]

/-- Under `loopModel` with `gamma = 1` and the zero policy, the `k`-th
evaluation iterate is the constant function `k`. -/
theorem peIter_loopModel : ∀ (k : ℕ) (s : ℕ),
    peIter loopModel zeroPol 1 k s = (k : ℚ) := by
  intro k
  induction k with
  | zero => intro s; rfl
  | succ k ih =>
      intro s
      show peStep loopModel zeroPol 1 (peIter loopModel zeroPol 1 k) s = ((k + 1 : ℕ) : ℚ)
      rw [peStep_loopModel 1, ih 0]
      push_cast
      ring

/-- Under `loopModel` with `gamma = 1`, no evaluation stopping test ever
passes for tolerance `1/1000`: consecutive iterates always differ by 1. -/
theorem loopModel_pe_stop_false (k : ℕ) :
    ¬ normInf (peIter loopModel zeroPol 1 k) (peIter loopModel zeroPol 1 (k + 1))
        loopModel.nS < 1 / 1000 := by
  have h : normInf (peIter loopModel zeroPol 1 k) (peIter loopModel zeroPol 1 (k + 1))
      loopModel.nS = 1 := by
    show ((List.range 1).map
      (fun s => |peIter loopModel zeroPol 1 k s - peIter loopModel zeroPol 1 (k + 1) s|)).foldr
        max 0 = 1
    rw [show List.range 1 = [0] from rfl, List.map_cons, List.map_nil, List.foldr_cons,
      List.foldr_nil, peIter_loopModel k 0, peIter_loopModel (k + 1) 0]
    push_cast
    rw [show (k : ℚ) - ((k : ℚ) + 1) = -1 by ring]
    norm_num
  rw [h]
  norm_num

/-- The Q-row of `loopModel`: every action's backup is `1 + γ * V 0`. -/
theorem Qrow_loopModel (γ : ℚ) (V : ℕ → ℚ) (s a : ℕ) :
    Qrow loopModel γ V s a = 1 + γ * V 0 := by
  simp [Qrow, prob, r, s_next, firstOutcome, loopModel]

/-- One value-iteration sweep on `loopModel`. -/
theorem viSweep_loopModel (γ : ℚ) (V : ℕ → ℚ) (s : ℕ) :
    viSweep loopModel γ V s = max 0 (1 + γ * V 0) := by
  have h0 : npMax (fun a => Qrow loopModel γ V s a) loopModel.nA = 1 + γ * V 0 := by
    show npMax (fun a => Qrow loopModel γ V s a) 1 = 1 + γ * V 0
    rw [npMax_one, Qrow_loopModel]
  rw [viSweep, h0]

/-- Under `loopModel` with `gamma = 1`, the `k`-th value-iteration iterate is
also the constant function `k`. -/
theorem viIter_loopModel : ∀ (k : ℕ) (s : ℕ),
    viIter loopModel 1 k s = (k : ℚ) := by
  intro k
  induction k with
  | zero => intro s; rfl
  | succ k ih =>
      intro s
      show viSweep loopModel 1 (viIter loopModel 1 k) s = ((k + 1 : ℕ) : ℚ)
      rw [viSweep_loopModel 1, ih 0, max_eq_right (by positivity)]
      push_cast
      ring

/-- Under `loopModel` with `gamma = 1`, no value-iteration stopping test ever
passes for tolerance `1/1000`. -/
theorem loopModel_vi_stop_false (k : ℕ) :
    ¬ normInf (viIter loopModel 1 k) (viIter loopModel 1 (k + 1))
        loopModel.nS < 1 / 1000 := by
  have h : normInf (viIter loopModel 1 k) (viIter loopModel 1 (k + 1))
      loopModel.nS = 1 := by
    show ((List.range 1).map
      (fun s => |viIter loopModel 1 k s - viIter loopModel 1 (k + 1) s|)).foldr
        max 0 = 1
    rw [show List.range 1 = [0] from rfl, List.map_cons, List.map_nil, List.foldr_cons,
      List.foldr_nil, viIter_loopModel k 0, viIter_loopModel (k + 1) 0]
    push_cast
    rw [show (k : ℚ) - ((k : ℚ) + 1) = -1 by ring]
    norm_num
  rw [h]
  norm_num

/-- The evaluation loop on `loopModel` with `gamma = 1` never exits, from any
iterate, whatever the fuel. -/
theorem peLoop_loopModel_none : ∀ (fuel k : ℕ),
    peLoop loopModel zeroPol 1 (1 / 1000) (peIter loopModel zeroPol 1 k) fuel = none := by
  intro fuel
  induction fuel with
  | zero => intro k; rfl
  | succ fuel ih =>
      intro k
      show (if normInf (peIter loopModel zeroPol 1 k)
              (peStep loopModel zeroPol 1 (peIter loopModel zeroPol 1 k)) loopModel.nS < 1 / 1000
            then some (peStep loopModel zeroPol 1 (peIter loopModel zeroPol 1 k))
            else peLoop loopModel zeroPol 1 (1 / 1000)
              (peStep loopModel zeroPol 1 (peIter loopModel zeroPol 1 k)) fuel) = none
      rw [peStep_iter, if_neg (loopModel_pe_stop_false k)]
      exact ih (k + 1)

/-- The value-iteration loop on `loopModel` with `gamma = 1` never exits. -/
theorem viLoop_loopModel_none : ∀ (fuel k : ℕ),
    viLoop loopModel 1 (1 / 1000) (viIter loopModel 1 k) fuel = none := by
  intro fuel
  induction fuel with
  | zero => intro k; rfl
  | succ fuel ih =>
      intro k
      show (if normInf (viIter loopModel 1 k)
              (viSweep loopModel 1 (viIter loopModel 1 k)) loopModel.nS < 1 / 1000
            then some (viSweep loopModel 1 (viIter loopModel 1 k))
            else viLoop loopModel 1 (1 / 1000)
              (viSweep loopModel 1 (viIter loopModel 1 k)) fuel) = none
      rw [viSweep_iter, if_neg (loopModel_vi_stop_false k)]
      exact ih (k + 1)

/-! ### The self-loop model at gamma = 1/2 and gamma = 2: concrete runs -/

/-- Under `loopModel` with `gamma = 1/2`, the `k`-th evaluation iterate is the
constant `2 - 2 * (1/2)^k`. -/
theorem peIter_loopModel_half : ∀ (k s : ℕ),
    peIter loopModel zeroPol (1/2) k s = 2 - 2 * (1/2 : ℚ)^k := by
  intro k
  induction k with
  | zero =>
      intro s
      show (0 : ℚ) = 2 - 2 * (1/2 : ℚ)^0
      norm_num
  | succ k ih =>
      intro s
      show peStep loopModel zeroPol (1/2) (peIter loopModel zeroPol (1/2) k) s
          = 2 - 2 * (1/2 : ℚ)^(k + 1)
      rw [peStep_loopModel, ih 0]
      ring

/-- Under `loopModel` with `gamma = 1/2`, the value-iteration iterates agree
with the evaluation iterates (the clamp at 0 is inactive). -/
theorem viIter_loopModel_half : ∀ (k s : ℕ),
    viIter loopModel (1/2) k s = 2 - 2 * (1/2 : ℚ)^k := by
  intro k
  induction k with
  | zero =>
      intro s
      show (0 : ℚ) = 2 - 2 * (1/2 : ℚ)^0
      norm_num
  | succ k ih =>
      intro s
      show viSweep loopModel (1/2) (viIter loopModel (1/2) k) s
          = 2 - 2 * (1/2 : ℚ)^(k + 1)
      rw [viSweep_loopModel, ih 0]
      have hle : (1/2 : ℚ)^k ≤ 1 := pow_le_one₀ (by norm_num) (by norm_num)
      rw [max_eq_right (by linarith)]
      ring

/-- Consecutive `gamma = 1/2` evaluation iterates on `loopModel` differ by
exactly `(1/2)^k`. -/
theorem pe_diff_half (k : ℕ) :
    normInf (peIter loopModel zeroPol (1/2) k) (peIter loopModel zeroPol (1/2) (k + 1))
      loopModel.nS = (1/2 : ℚ)^k := by
  show normInf _ _ 1 = _
  rw [normInf_one, peIter_loopModel_half k 0, peIter_loopModel_half (k + 1) 0,
    show (2 - 2 * (1/2 : ℚ)^k) - (2 - 2 * (1/2 : ℚ)^(k + 1)) = -(1/2 : ℚ)^k by ring,
    abs_neg, abs_of_nonneg (by positivity)]

/-- Consecutive `gamma = 1/2` value-iteration iterates on `loopModel` differ
by exactly `(1/2)^k`. -/
theorem vi_diff_half (k : ℕ) :
    normInf (viIter loopModel (1/2) k) (viIter loopModel (1/2) (k + 1))
      loopModel.nS = (1/2 : ℚ)^k := by
  show normInf _ _ 1 = _
  rw [normInf_one, viIter_loopModel_half k 0, viIter_loopModel_half (k + 1) 0,
    show (2 - 2 * (1/2 : ℚ)^k) - (2 - 2 * (1/2 : ℚ)^(k + 1)) = -(1/2 : ℚ)^k by ring,
    abs_neg, abs_of_nonneg (by positivity)]

/-- Concrete run: policy_evaluation on `loopModel`, `gamma = 1/2`,
`tol = 1/1000` first stops at iterate 10 and returns the 11th iterate. -/
theorem pe_run_half_1000 :
    policy_evaluation loopModel zeroPol (1/2) (1/1000) 30
      = some (peIter loopModel zeroPol (1/2) (10 + 1)) := by
  have hK : normInf (peIter loopModel zeroPol (1/2) 10)
      (peIter loopModel zeroPol (1/2) (10 + 1)) loopModel.nS < 1/1000 := by
    rw [pe_diff_half]
    norm_num
  have hmin : ∀ j, j < 10 →
      ¬ normInf (peIter loopModel zeroPol (1/2) j)
          (peIter loopModel zeroPol (1/2) (j + 1)) loopModel.nS < 1/1000 := by
    intro j hj
    rw [pe_diff_half]
    intro hlt
    have h9 : (1/2 : ℚ)^9 ≤ (1/2 : ℚ)^j :=
      pow_le_pow_of_le_one (by norm_num) (by norm_num) (by omega)
    norm_num at h9 hlt
    linarith
  show peLoop loopModel zeroPol (1/2) (1/1000) (peIter loopModel zeroPol (1/2) 0) 30 = _
  exact peLoop_from _ _ _ _ 10 hK hmin 30 0 (by omega) (by omega)

/-- Concrete run: policy_evaluation on `loopModel`, `gamma = 1/2`,
`tol = 1/2` first stops at iterate 2 and returns the 3rd iterate. -/
theorem pe_run_half_2 :
    policy_evaluation loopModel zeroPol (1/2) (1/2) 30
      = some (peIter loopModel zeroPol (1/2) (2 + 1)) := by
  have hK : normInf (peIter loopModel zeroPol (1/2) 2)
      (peIter loopModel zeroPol (1/2) (2 + 1)) loopModel.nS < 1/2 := by
    rw [pe_diff_half]
    norm_num
  have hmin : ∀ j, j < 2 →
      ¬ normInf (peIter loopModel zeroPol (1/2) j)
          (peIter loopModel zeroPol (1/2) (j + 1)) loopModel.nS < 1/2 := by
    intro j hj
    rw [pe_diff_half]
    intro hlt
    have h1 : (1/2 : ℚ)^1 ≤ (1/2 : ℚ)^j :=
      pow_le_pow_of_le_one (by norm_num) (by norm_num) (by omega)
    norm_num at h1 hlt
    linarith
  show peLoop loopModel zeroPol (1/2) (1/2) (peIter loopModel zeroPol (1/2) 0) 30 = _
  exact peLoop_from _ _ _ _ 2 hK hmin 30 0 (by omega) (by omega)

/-- Concrete run: the value-iteration loop on `loopModel`, `gamma = 1/2`,
`tol = 1/2` first stops at iterate 2 and returns the 3rd iterate. -/
theorem vi_run_half_2 :
    viLoop loopModel (1/2) (1/2) zeroV 30 = some (viIter loopModel (1/2) (2 + 1)) := by
  have hK : normInf (viIter loopModel (1/2) 2)
      (viIter loopModel (1/2) (2 + 1)) loopModel.nS < 1/2 := by
    rw [vi_diff_half]
    norm_num
  have hmin : ∀ j, j < 2 →
      ¬ normInf (viIter loopModel (1/2) j)
          (viIter loopModel (1/2) (j + 1)) loopModel.nS < 1/2 := by
    intro j hj
    rw [vi_diff_half]
    intro hlt
    have h1 : (1/2 : ℚ)^1 ≤ (1/2 : ℚ)^j :=
      pow_le_pow_of_le_one (by norm_num) (by norm_num) (by omega)
    norm_num at h1 hlt
    linarith
  show viLoop loopModel (1/2) (1/2) (viIter loopModel (1/2) 0) 30 = _
  exact viLoop_from _ _ _ 2 hK hmin 30 0 (by omega) (by omega)

/-- On the one-action `loopModel`, policy improvement always returns the zero
policy (the only action), whatever the inputs. -/
theorem policy_improvement_loopModel (V : ℕ → ℚ) (pol : ℕ → ℕ) (γ : ℚ) :
    policy_improvement loopModel V pol γ = zeroPol :=
  funext fun _ => npArgmax_one _

/-- Concrete run: policy_iteration on `loopModel` with `gamma = 1/2` is
policy-stable immediately and returns the all-zero value function paired
with the zero policy. -/
theorem pi_run_concrete :
    policy_iteration loopModel (1/2) (1/100) 30 5 = some (zeroV, zeroPol) := by
  show (match policy_evaluation loopModel zeroPol (1/2) (1/1000) 30 with
        | none => none
        | some V => piLoop loopModel (1/2) 30 V zeroPol 5) = some (zeroV, zeroPol)
  rw [pe_run_half_1000]
  show piLoop loopModel (1/2) 30 (peIter loopModel zeroPol (1/2) (10 + 1)) zeroPol (4 + 1)
      = some (zeroV, zeroPol)
  rw [piLoop, policy_improvement_loopModel, pe_run_half_1000]
  show (if arrayEqual zeroPol zeroPol loopModel.nS then some (zeroV, zeroPol)
        else piLoop loopModel (1/2) 30 (peIter loopModel zeroPol (1/2) (10 + 1)) zeroPol 4)
      = some (zeroV, zeroPol)
  rw [arrayEqual_self]
  rfl

/-- Concrete run: value_iteration on `loopModel` with `gamma = 1/2`,
`tol = 1/2` returns the all-zero value function paired with the zero policy. -/
theorem vi_run_concrete :
    value_iteration loopModel (1/2) (1/2) 30 = some (zeroV, zeroPol) := by
  rw [value_iteration, vi_run_half_2, Option.map_some', policy_improvement_loopModel]

/-- Under `loopModel` with the (invalid) discount `gamma = 2`, the evaluation
iterates grow as `2^k - 1`. -/
theorem peIter_loopModel_two : ∀ k : ℕ, peIter loopModel zeroPol 2 k 0 = 2^k - 1 := by
  intro k
  induction k with
  | zero =>
      show (0 : ℚ) = 2^0 - 1
      norm_num
  | succ k ih =>
      show peStep loopModel zeroPol 2 (peIter loopModel zeroPol 2 k) 0 = 2^(k + 1) - 1
      rw [peStep_loopModel, ih]
      ring

/-- Concrete run: policy_evaluation with the invalid `gamma = 2` and the very
loose `tol = 10` exits after one update and returns the first iterate. -/
theorem pe_run_two_10 :
    policy_evaluation loopModel zeroPol 2 10 5 = some (peIter loopModel zeroPol 2 (0 + 1)) := by
  have hK : normInf (peIter loopModel zeroPol 2 0)
      (peIter loopModel zeroPol 2 (0 + 1)) loopModel.nS < 10 := by
    show normInf _ _ 1 < 10
    rw [normInf_one,
      show peIter loopModel zeroPol 2 (0 + 1) 0
          = peStep loopModel zeroPol 2 (peIter loopModel zeroPol 2 0) 0 from rfl,
      peStep_loopModel]
    show |(0 : ℚ) - (1 + 2 * 0)| < 10
    norm_num
  show peLoop loopModel zeroPol 2 10 (peIter loopModel zeroPol 2 0) 5 = _
  exact peLoop_from _ _ _ _ 0 hK (fun j hj => absurd hj (Nat.not_lt_zero j)) 5 0
    (by omega) (by omega)

/-! ### Small-model computations for the remaining concrete facts -/

/-- Every Q-value of `mTie` at the zero value function is 1: the two actions
tie. -/
theorem Qrow_mTie (b : ℕ) : Qrow mTie (1/2) zeroV 0 b = 1 := by
  norm_num [Qrow, prob, r, s_next, firstOutcome, mTie, zeroV]

/-- Every Q-value of `mNeg` at the zero value function is -1. -/
theorem Qrow_mNeg (a : ℕ) : Qrow mNeg (1/2) zeroV 0 a = -1 := by
  norm_num [Qrow, prob, r, s_next, firstOutcome, mNeg, zeroV]

/-! ### Claim theorems -/

/-- C1 (code_bug evidence): the spec says both entry algorithms return the
value function their iteration computed, but on the self-loop model with
`gamma = 1/2` both `policy_iteration` and `value_iteration` return the
untouched all-zero `value_function` array, while the values their iterations
actually computed are `2047/1024` (evaluation of the final policy at
`tol = 1e-3`) and `7/4` (the converged value-iteration iterate at
`tol = 1/2`). -/
theorem C1_returns_initial_zeros :
    Option.map (fun p => p.1 0) (policy_iteration loopModel (1/2) (1/100) 30 5) = some 0 ∧
    Option.map (fun V => V 0) (policy_evaluation loopModel zeroPol (1/2) (1/1000) 30)
      = some (2047/1024) ∧
    Option.map (fun p => p.1 0) (value_iteration loopModel (1/2) (1/2) 30) = some 0 ∧
    Option.map (fun V => V 0) (viLoop loopModel (1/2) (1/2) zeroV 30) = some (7/4) := by
  refine ⟨?_, ?_, ?_, ?_⟩
  · rw [pi_run_concrete]
    rfl
  · rw [pe_run_half_1000]
    show some (peIter loopModel zeroPol (1/2) (10 + 1) 0) = some (2047/1024)
    rw [peIter_loopModel_half]
    norm_num
  · rw [vi_run_concrete]
    rfl
  · rw [vi_run_half_2]
    show some (viIter loopModel (1/2) (2 + 1) 0) = some (7/4)
    rw [viIter_loopModel_half]
    norm_num

/-- C2 counterexample: on the self-loop model with reward 1 and `gamma = 1`,
the policy-evaluation stopping criterion fails at every iteration — the claim
that every convergence loop either meets its tolerance or surfaces a
NonConvergence error is false for this input (the source has no iteration
guard and no error path at all). -/
theorem C2_counterexample : PEStops loopModel zeroPol 1 (1/1000) = False := by
  apply eq_false
  rintro ⟨k, hk⟩
  exact loopModel_pe_stop_false k hk

/-- C2 (amended): the convergence loops of policy_evaluation, value_iteration
and policy_iteration are unguarded `while True` loops with no maximum
iteration count and no NonConvergence error; on the `gamma = 1` self-loop
model with reward 1 the tolerance/stability criterion is never met, so all
three loops run forever (no fuel bound ever produces a result). -/
theorem C2_loops_run_forever :
    (∀ fuel, policy_evaluation loopModel zeroPol 1 (1/1000) fuel = none) ∧
    (∀ fuel, viLoop loopModel 1 (1/1000) zeroV fuel = none) ∧
    (∀ tol evalFuel outerFuel,
      policy_iteration loopModel 1 tol evalFuel outerFuel = none) := by
  refine ⟨?_, ?_, ?_⟩
  · intro fuel
    exact peLoop_loopModel_none fuel 0
  · intro fuel
    exact viLoop_loopModel_none fuel 0
  · intro tol evalFuel outerFuel
    show (match policy_evaluation loopModel zeroPol 1 (1/1000) evalFuel with
          | none => none
          | some V => piLoop loopModel 1 evalFuel V zeroPol outerFuel) = none
    rw [show policy_evaluation loopModel zeroPol 1 (1/1000) evalFuel = none from
      peLoop_loopModel_none evalFuel 0]

/-- C3 counterexample: on the two-outcome pair `(0,0)` of `mC3` the adapter
keeps only the first outcome — probability 1/2, reward 0, next state 0 —
although the model's outcome probabilities sum to 1 and its
probability-weighted reward is 1/2: half the probability mass and all of the
aggregate reward are silently dropped, with no aggregation and no error. -/
theorem C3_counterexample :
    prob mC3 0 0 = 1/2 ∧ r mC3 0 0 = 0 ∧ s_next mC3 0 0 = 0 ∧
    ((mC3.P 0 0).map Outcome.prob).sum = 1 ∧
    ((mC3.P 0 0).map (fun o => o.prob * o.reward)).sum = 1/2 := by
  refine ⟨?_, ?_, ?_, ?_, ?_⟩ <;> norm_num [prob, r, s_next, firstOutcome, mC3]

/-- C3 (amended): the Transition Model Adapter silently uses only the first
outcome of each `(state, action)` outcome list and drops the remaining
probability mass: its entire output agrees with the output on the model
truncated to the head outcome of every list. -/
theorem C3_adapter_head_only :
    ∀ (m : MDP) (s a : ℕ),
      prob m s a = prob (truncateModel m) s a ∧
      s_next m s a = s_next (truncateModel m) s a ∧
      r m s a = r (truncateModel m) s a := by
  intro m s a
  have hh : ((m.P s a).take 1).headI = (m.P s a).headI := by
    cases m.P s a with
    | nil => rfl
    | cons o l => rfl
  refine ⟨?_, ?_, ?_⟩ <;> simp [prob, s_next, r, firstOutcome, truncateModel, hh]

/-- C4 (code_bug evidence): policy_iteration's result does not depend on its
`tol` argument at all (the sub-calls to policy_evaluation on lines 170 and
174 omit `tol`, so the default `1e-3` is always used), even though
policy_evaluation itself is `tol`-sensitive: on the self-loop model with
`gamma = 1/2` it returns `7/4` at `tol = 1/2` but `2047/1024` at
`tol = 1e-3`. -/
theorem C4_tol_not_forwarded :
    (∀ (m : MDP) (γ t₁ t₂ : ℚ) (evalFuel outerFuel : ℕ),
        policy_iteration m γ t₁ evalFuel outerFuel
          = policy_iteration m γ t₂ evalFuel outerFuel) ∧
    Option.map (fun V => V 0) (policy_evaluation loopModel zeroPol (1/2) (1/2) 30)
      = some (7/4) ∧
    Option.map (fun V => V 0) (policy_evaluation loopModel zeroPol (1/2) (1/1000) 30)
      = some (2047/1024) := by
  refine ⟨fun m γ t₁ t₂ evalFuel outerFuel => rfl, ?_, ?_⟩
  · rw [pe_run_half_2]
    show some (peIter loopModel zeroPol (1/2) (2 + 1) 0) = some (7/4)
    rw [peIter_loopModel_half]
    norm_num
  · rw [pe_run_half_1000]
    show some (peIter loopModel zeroPol (1/2) (10 + 1) 0) = some (2047/1024)
    rw [peIter_loopModel_half]
    norm_num

/-- C5 counterexample: no configuration validation exists.  A call with the
invalid discount `gamma = 2` is not rejected — it performs an iteration and
returns a value — and a call with the invalid tolerance `tol = -1` simply
iterates without ever being rejected (and without any error). -/
theorem C5_counterexample :
    Option.map (fun V => V 0) (policy_evaluation loopModel zeroPol 2 10 5) = some 1 ∧
    (policy_evaluation loopModel zeroPol (1/2) (-1) 5).isNone = true := by
  constructor
  · rw [pe_run_two_10]
    show some (peIter loopModel zeroPol 2 (0 + 1) 0) = some 1
    rw [peIter_loopModel_two]
    norm_num
  · rw [show policy_evaluation loopModel zeroPol (1/2) (-1) 5 = none from
      peLoop_none_of_tol_nonpos loopModel zeroPol (1/2) (-1) (by norm_num) 5 zeroV]
    rfl

/-- C5 (amended): gamma and tol are accepted unchecked — there is no
InvalidConfiguration error anywhere.  With the invalid `gamma = 2` the
evaluation iteration proceeds normally and its iterates grow as `2^k - 1`;
with the invalid `tol = -1` the loop iterates forever (no fuel bound
produces a result), again without any rejection. -/
theorem C5_no_validation :
    (∀ k, peIter loopModel zeroPol 2 k 0 = 2^k - 1) ∧
    (∀ fuel, policy_evaluation loopModel zeroPol (1/2) (-1) fuel = none) := by
  refine ⟨peIter_loopModel_two, ?_⟩
  intro fuel
  exact peLoop_none_of_tol_nonpos loopModel zeroPol (1/2) (-1) (by norm_num) fuel zeroV

/-- C6: for a single-outcome model, a valid policy, `gamma` in `[0,1)` and
`tol > 0`, policy_evaluation starts from the all-zero value function,
iterates exactly `V_{k+1}(s) = prob(s,pi(s)) * (reward(s,pi(s)) + gamma *
V_k(next_state(s,pi(s))))` (the flat `np.take` indexing collapses to the
direct `(s, pi(s))` model lookup), and — when `K` is the first index whose
update moves the iterate by less than `tol` in infinity norm — returns
exactly the `(K+1)`-st iterate. -/
theorem C6_policy_evaluation_exact (m : MDP) (pol : ℕ → ℕ) (γ tol : ℚ)
    (hγ0 : 0 ≤ γ) (hγ1 : γ < 1) (htol : 0 < tol)
    (hsingle : ∀ s a, (m.P s a).length = 1)
    (hpol : ∀ s, pol s < m.nA)
    (K fuel : ℕ)
    (hK : normInf (peIter m pol γ K) (peIter m pol γ (K + 1)) m.nS < tol)
    (hmin : ∀ j, j < K →
      ¬ normInf (peIter m pol γ j) (peIter m pol γ (j + 1)) m.nS < tol)
    (hfuel : K < fuel) :
    (∀ s, peIter m pol γ 0 s = 0) ∧
    (∀ k s, peIter m pol γ (k + 1) s =
      (m.P s (pol s)).headI.prob *
        ((m.P s (pol s)).headI.reward + γ * peIter m pol γ k ((m.P s (pol s)).headI.next))) ∧
    policy_evaluation m pol γ tol fuel = some (peIter m pol γ (K + 1)) := by
  refine ⟨fun s => rfl, ?_, ?_⟩
  · intro k s
    obtain ⟨hp, hn, hr⟩ := take_pi_eq m pol s (hpol s)
    show peStep m pol γ (peIter m pol γ k) s = _
    rw [peStep, hp, hn, hr]
    rfl
  · show peLoop m pol γ tol (peIter m pol γ 0) fuel = _
    exact peLoop_from m pol γ tol K hK hmin fuel 0 (Nat.zero_le K) (by omega)

/-- C6 witness: the theorem applied to the self-loop model with
`gamma = 1/2`, `tol = 1/2`, first stopping index 2, fuel 5. -/
theorem C6_witness :
    policy_evaluation loopModel zeroPol (1/2) (1/2) 5
      = some (peIter loopModel zeroPol (1/2) (2 + 1)) :=
  (C6_policy_evaluation_exact loopModel zeroPol (1/2) (1/2)
    (by norm_num) (by norm_num) (by norm_num)
    (fun _ _ => rfl) (fun _ => Nat.zero_lt_one) 2 5
    (by rw [pe_diff_half]; norm_num)
    (by
      intro j hj
      rw [pe_diff_half]
      intro hlt
      have h1 : (1/2 : ℚ)^1 ≤ (1/2 : ℚ)^j :=
        pow_le_pow_of_le_one (by norm_num) (by norm_num) (by omega)
      norm_num at h1 hlt
      linarith)
    (by omega)).2.2

/-- C7 counterexample: on the all-negative-reward model `mNeg` the source's
sweep produces 0 at state 0 while the claimed formula — the plain action-max
of the one-step backup with no other transformation — produces -1: the
sweep clamps the action-max below at zero. -/
theorem C7_counterexample :
    viSweep mNeg (1/2) zeroV 0 = 0 ∧ viSweepSpec mNeg (1/2) zeroV 0 = -1 := by
  constructor
  · show max 0 (npMax (fun a => Qrow mNeg (1/2) zeroV 0 a) 1) = 0
    rw [npMax_one, Qrow_mNeg]
    norm_num
  · show npMax
      (fun a => prob mNeg 0 a * (r mNeg 0 a + (1/2 : ℚ) * zeroV (s_next mNeg 0 a))) 1 = -1
    rw [npMax_one]
    norm_num [prob, r, s_next, firstOutcome, mNeg, zeroV]

/-- C7 (amended): for a single-outcome model with at least one action,
`gamma` in `[0,1)` and `tol > 0`, each value-iteration sweep computes
`V_{k+1}(s) = max(0, max_a [prob(s,a) * (reward(s,a) + gamma *
V_k(next(s,a)))])` — the action-max of the one-step backup clamped below at
zero — where the inner quantity dominates every action's backup and is
attained (when positive) by some action; and when `K` is the first index
whose sweep moves the iterate by less than `tol` in infinity norm, the loop
returns exactly the `(K+1)`-st iterate. -/
theorem C7_sweep_clamped (m : MDP) (γ tol : ℚ)
    (hγ0 : 0 ≤ γ) (hγ1 : γ < 1) (htol : 0 < tol)
    (hsingle : ∀ s a, (m.P s a).length = 1) (hA : 0 < m.nA)
    (K fuel : ℕ)
    (hK : normInf (viIter m γ K) (viIter m γ (K + 1)) m.nS < tol)
    (hmin : ∀ j, j < K → ¬ normInf (viIter m γ j) (viIter m γ (j + 1)) m.nS < tol)
    (hfuel : K < fuel) :
    (∀ V s, viSweep m γ V s = max 0 (viSweepSpec m γ V s)) ∧
    (∀ V s a, a < m.nA → Qrow m γ V s a ≤ viSweep m γ V s) ∧
    (∀ V s, viSweep m γ V s = 0 ∨ ∃ a, a < m.nA ∧ viSweep m γ V s = Qrow m γ V s a) ∧
    viLoop m γ tol zeroV fuel = some (viIter m γ (K + 1)) := by
  refine ⟨fun V s => rfl, ?_, ?_, ?_⟩
  · intro V s a ha
    exact le_trans (le_npMax _ _ _ ha) (le_max_right 0 _)
  · intro V s
    rcases le_or_lt (npMax (fun a => Qrow m γ V s a) m.nA) 0 with h | h
    · left
      exact max_eq_left h
    · right
      obtain ⟨a, ha, hEq⟩ := npMax_choice (fun a => Qrow m γ V s a) m.nA hA
      exact ⟨a, ha, by rw [viSweep, max_eq_right (le_of_lt h), hEq]⟩
  · show viLoop m γ tol (viIter m γ 0) fuel = _
    exact viLoop_from m γ tol K hK hmin fuel 0 (Nat.zero_le K) (by omega)

/-- C7 witness: the amended theorem applied to the self-loop model with
`gamma = 1/2`, `tol = 1/2`, first stopping index 2, fuel 5. -/
theorem C7_witness :
    viLoop loopModel (1/2) (1/2) zeroV 5 = some (viIter loopModel (1/2) (2 + 1)) :=
  (C7_sweep_clamped loopModel (1/2) (1/2)
    (by norm_num) (by norm_num) (by norm_num)
    (fun _ _ => rfl) Nat.zero_lt_one 2 5
    (by rw [vi_diff_half]; norm_num)
    (by
      intro j hj
      rw [vi_diff_half]
      intro hlt
      have h1 : (1/2 : ℚ)^1 ≤ (1/2 : ℚ)^j :=
        pow_le_pow_of_le_one (by norm_num) (by norm_num) (by omega)
      norm_num at h1 hlt
      linarith)
    (by omega)).2.2.2

/-- C8: whenever action `a` attains the maximum Q-value for state `s` (in
particular when several actions tie), the policy returned by
policy_improvement picks an in-range maximizing action that is less than or
equal to `a` — i.e. the lowest-indexed maximizer, since this holds for every
maximizing `a`.  As a pure function of its inputs it behaves identically on
every run. -/
theorem C8_lowest_index_argmax (m : MDP) (V : ℕ → ℚ) (pol : ℕ → ℕ) (γ : ℚ) (s a : ℕ)
    (ha : a < m.nA)
    (hmax : ∀ b, b < m.nA → Qrow m γ V s b ≤ Qrow m γ V s a) :
    policy_improvement m V pol γ s ≤ a ∧
    policy_improvement m V pol γ s < m.nA ∧
    (∀ b, b < m.nA → Qrow m γ V s b ≤ Qrow m γ V s (policy_improvement m V pol γ s)) := by
  have hn : 0 < m.nA := Nat.lt_of_le_of_lt (Nat.zero_le a) ha
  obtain ⟨h1, h2, h3⟩ := npArgmax_spec (fun b => Qrow m γ V s b) m.nA hn
  exact ⟨h3 a ha (hmax _ h1), h1, h2⟩

/-- C8 witness: on the two-action tie model `mTie` (both actions have
Q-value 1 at the zero value function), the improvement at state 0 returns an
action that is at most 1, in range, and maximizing — hence action 0, the
lower index. -/
theorem C8_witness :
    policy_improvement mTie zeroV zeroPol (1/2) 0 ≤ 1 ∧
    policy_improvement mTie zeroV zeroPol (1/2) 0 < mTie.nA ∧
    (∀ b, b < mTie.nA → Qrow mTie (1/2) zeroV 0 b
      ≤ Qrow mTie (1/2) zeroV 0 (policy_improvement mTie zeroV zeroPol (1/2) 0)) :=
  C8_lowest_index_argmax mTie zeroV zeroPol (1/2) 0 1 (by decide)
    (fun b _ => le_of_eq (by rw [Qrow_mTie, Qrow_mTie]))

/-- C9: policy_improvement is a pure function of the model, the value
function and gamma — the prior-policy argument is never read, so two calls
differing only in that argument return identical policies (and in this
functional embedding nothing is mutated). -/
theorem C9_improvement_ignores_prior_policy :
    ∀ (m : MDP) (V : ℕ → ℚ) (γ : ℚ) (p q : ℕ → ℕ),
      policy_improvement m V p γ = policy_improvement m V q γ :=
  fun _ _ _ _ _ => rfl

/-- C10: every value-iteration iterate is elementwise nonnegative — each
sweep is the action-max clamped below at the fresh zero array — for every
model (in particular models whose rewards are all negative), every gamma,
every iteration index, and likewise whatever value function the
value-iteration loop returns (the iterate from which the final policy is
extracted). -/
theorem C10_vi_iterates_nonneg :
    ∀ (m : MDP) (γ tol : ℚ) (V₀ : ℕ → ℚ) (fuel k s : ℕ),
      0 ≤ viIter m γ k s ∧ 0 ≤ ((viLoop m γ tol V₀ fuel).getD zeroV) s := by
  intro m γ tol V₀ fuel k s
  refine ⟨?_, viLoop_nonneg m γ tol fuel V₀ s⟩
  cases k with
  | zero => exact le_refl 0
  | succ k => exact le_max_left 0 _
